import Mathlib

/-!
# Verification of the nebula-client batch collection-and-delivery pipeline

Shallow embedding of the pipeline of this repository:
directory traversal with per-file keyword extraction
(`_collect_and_extract_files`, `_get_file_type`), chunking
(`_chunk_files`, `_get_batch_size`), resilient delivery
(`SpringClient.send_snapshot_batch`), sequential batch dispatch
(`_send_batches_to_spring`), local task bookkeeping (`_task_storage`),
the PARA classifier of `to_organized_file_entry`, and the page-size
clamping of the TypeScript frontend client.

External collaborators (the file system, the ML extractors, the HTTP
transport and the Spring server) are modelled as oracles supplied as
arguments; the embedded functions mirror the control flow of the source.
-/

namespace Nebula

/-! ## Batch builder (`_chunk_files`, `_get_batch_size`)

The source iterates `for i in range(0, len(files), batch_size)` and
appends the slice `files[i : i + batch_size]`.  For a positive step this
loop takes the first `batch_size` elements and continues on the rest,
which is the recursion below (`range` with step 0 is outside the
contract: the source would raise `ValueError`, modelled as `[]`). -/

def _chunk_files (files : List α) (batch_size : Nat) : List (List α) :=
  if batch_size = 0 then []
  else match files with
    | [] => []
    | a :: l =>
      (a :: l).take batch_size :: _chunk_files ((a :: l).drop batch_size) batch_size
termination_by files.length
decreasing_by
  simp
  omega

/-- Processing strategies accepted by the organize endpoint. -/
inductive OrganizationStrategy
  | cost_effective
  | balanced
  | premium
deriving DecidableEq

/-- `_get_batch_size`: strategy → batch size lookup.  In the source the
lookup is `mapping.get(strategy, 50)`; the enum is closed, so every
constructor is mapped and the fallback 50 is unreachable for well-typed
input. -/
def _get_batch_size (strategy : OrganizationStrategy) : Nat :=
  match strategy with
  | .cost_effective => 100
  | .balanced => 50
  | .premium => 20

/-- Concatenating the chunks gives back the input list. -/
theorem _chunk_files_flatten (files : List α) (batch_size : Nat) (hb : 0 < batch_size) :
    (_chunk_files files batch_size).flatten = files := by
  induction files, batch_size using _chunk_files.induct with
  | case1 files => omega
  | case2 b hb0 => rw [_chunk_files]; simp [hb0]
  | case3 b hb0 a l ih =>
    rw [_chunk_files]
    simp only [if_neg hb0, List.flatten_cons]
    rw [ih hb, List.take_append_drop]

/-- Arithmetic step of the chunk-count proof. -/
theorem chunk_count_step (n b : Nat) (hb : 0 < b) (hn : 0 < n) :
    (n - b + b - 1) / b + 1 = (n + b - 1) / b := by
  rcases Nat.lt_or_ge b n with hlt | hge
  · have h1 : n - b + b - 1 = n - 1 := by omega
    have h2 : n + b - 1 = (n - 1) + b := by omega
    rw [h1, h2, Nat.add_div_right _ hb]
  · have h1 : n - b + b - 1 = b - 1 := by omega
    rw [h1, Nat.div_eq_of_lt (by omega)]
    symm
    exact Nat.div_eq_of_lt_le (by omega) (by omega)

/-- Number of chunks is `⌈N / B⌉`, computed as `(N + B - 1) / B`. -/
theorem _chunk_files_length (files : List α) (batch_size : Nat) (hb : 0 < batch_size) :
    (_chunk_files files batch_size).length =
      (files.length + batch_size - 1) / batch_size := by
  induction files, batch_size using _chunk_files.induct with
  | case1 files => omega
  | case2 b hb0 =>
    rw [_chunk_files]
    simp only [if_neg hb0, List.length_nil]
    symm
    exact Nat.div_eq_of_lt (by omega)
  | case3 b hb0 a l ih =>
    rw [_chunk_files]
    simp only [if_neg hb0, List.length_cons]
    rw [ih hb, List.length_drop]
    simp only [List.length_cons]
    exact chunk_count_step (l.length + 1) b hb (by omega)

/-- Every chunk is non-empty and holds at most `B` records. -/
theorem _chunk_files_mem (files : List α) (batch_size : Nat) (hb : 0 < batch_size) :
    ∀ b ∈ _chunk_files files batch_size, 0 < b.length ∧ b.length ≤ batch_size := by
  induction files, batch_size using _chunk_files.induct with
  | case1 files => omega
  | case2 b hb0 =>
    rw [_chunk_files]
    simp [hb0]
  | case3 b hb0 a l ih =>
    rw [_chunk_files]
    simp only [if_neg hb0]
    intro c hc
    rcases List.mem_cons.mp hc with hhd | htl
    · subst hhd
      refine ⟨?_, by simp⟩
      simp
      omega
    · exact ih hb c htl

/-- Every chunk other than the last holds exactly `B` records. -/
theorem _chunk_files_getD (files : List α) (batch_size : Nat) (hb : 0 < batch_size) :
    ∀ i : Nat, i + 1 < (_chunk_files files batch_size).length →
      ((_chunk_files files batch_size).getD i []).length = batch_size := by
  induction files, batch_size using _chunk_files.induct with
  | case1 files => omega
  | case2 b hb0 =>
    rw [_chunk_files]
    simp [hb0]
  | case3 b hb0 a l ih =>
    rw [_chunk_files]
    simp only [if_neg hb0]
    intro i hi
    cases i with
    | zero =>
      simp only [List.getD_cons_zero]
      simp only [List.length_cons] at hi
      have htail : _chunk_files ((a :: l).drop b) b ≠ [] := by
        intro hnil
        rw [hnil] at hi
        simp at hi
      have hdrop : (a :: l).drop b ≠ [] := by
        intro hnil
        apply htail
        rw [hnil, _chunk_files]
        simp
      have hblt : b < (a :: l).length := by
        by_contra hcon
        push_neg at hcon
        rw [List.drop_eq_nil_of_le hcon] at hdrop
        exact hdrop rfl
      simp only [List.length_take, List.length_cons] at hblt ⊢
      omega
    | succ j =>
      simp only [List.getD_cons_succ]
      simp only [List.length_cons] at hi
      exact ih hb j (by omega)

/-- C1: the batch builder `_chunk_files` produces `⌈N/B⌉` batches, their
concatenation is the input list (hence sizes sum to `N`, no reordering,
no filtering), every batch is non-empty with at most `B` records, every
batch but possibly the last has exactly `B` records, and an empty input
yields zero batches. -/
theorem chunk_files_spec (files : List α) (batch_size : Nat) (hb : 0 < batch_size) :
    (_chunk_files files batch_size).length = (files.length + batch_size - 1) / batch_size ∧
    (_chunk_files files batch_size).flatten = files ∧
    ((_chunk_files files batch_size).map List.length).sum = files.length ∧
    (∀ b ∈ _chunk_files files batch_size, 0 < b.length ∧ b.length ≤ batch_size) ∧
    (∀ i : Nat, i + 1 < (_chunk_files files batch_size).length →
      ((_chunk_files files batch_size).getD i []).length = batch_size) ∧
    (files = [] → _chunk_files files batch_size = []) := by
  refine ⟨_chunk_files_length files batch_size hb,
          _chunk_files_flatten files batch_size hb, ?_,
          _chunk_files_mem files batch_size hb,
          _chunk_files_getD files batch_size hb, ?_⟩
  · calc ((_chunk_files files batch_size).map List.length).sum
        = (_chunk_files files batch_size).flatten.length := by
          rw [List.length_flatten]
      _ = files.length := by rw [_chunk_files_flatten files batch_size hb]
  · intro hf
    subst hf
    rw [_chunk_files]
    simp

/-- C1 witness: 5 records in batches of 2 yield chunks of sizes 2, 2, 1. -/
theorem chunk_files_spec_witness :
    (_chunk_files [0, 1, 2, 3, 4] 2).length = (5 + 2 - 1) / 2 ∧
    (_chunk_files [0, 1, 2, 3, 4] 2).flatten = [0, 1, 2, 3, 4] := by
  have h := chunk_files_spec [0, 1, 2, 3, 4] 2 (by decide)
  exact ⟨h.1, h.2.1⟩

/-! ## Delivery client (`SpringClient.send_snapshot_batch`)

The source loops `for attempt in range(self.max_retries)`.  Each
iteration either gets an HTTP response with a status code, or raises
`httpx.TimeoutException` / `httpx.RequestError`; the transport is
modelled as an oracle `outcome : Nat → AttemptOutcome` giving the result
of each attempt.  The model returns the delivery result together with
the list of sleep delays (seconds passed to `asyncio.sleep`) and the
number of attempts performed. -/

/-- What the HTTP transport yields on one attempt. -/
inductive AttemptOutcome
  | http (code : Nat)
  | timeout
  | netError
deriving DecidableEq

/-- The `SpringIntegrationError` variants raised by `send_snapshot_batch`. -/
inductive SendError
  | rejected (code : Nat)
  | timedOut
  | connectFailed
  | maxRetriesExceeded
deriving DecidableEq

/-- Result of `send_snapshot_batch`: the parsed response (modelled by the
index of the successful attempt) or the raised error. -/
inductive SendOutcome
  | accepted (attempt : Nat)
  | failed (e : SendError)
deriving DecidableEq

/-- One step of the retry loop of `send_snapshot_batch`, starting at
`attempt`.  Mirrors the source: status 200 returns; status 429 sleeps
`2 ** attempt` and continues; status ≥ 400 raises; any other status
falls through to the next iteration without sleeping; a timeout or
request error raises on the last attempt and otherwise sleeps
`2 ** attempt`; when the loop ends without returning, the
max-retries-exceeded error is raised. -/
def sendFrom (outcome : Nat → AttemptOutcome) (max_retries attempt : Nat) :
    SendOutcome × List Nat × Nat :=
  if attempt < max_retries then
    match outcome attempt with
    | .http code =>
      if code = 200 then (.accepted attempt, [], 1)
      else if code = 429 then
        let r := sendFrom outcome max_retries (attempt + 1)
        (r.1, 2 ^ attempt :: r.2.1, r.2.2 + 1)
      else if 400 ≤ code then (.failed (.rejected code), [], 1)
      else
        let r := sendFrom outcome max_retries (attempt + 1)
        (r.1, r.2.1, r.2.2 + 1)
    | .timeout =>
      if attempt = max_retries - 1 then (.failed .timedOut, [], 1)
      else
        let r := sendFrom outcome max_retries (attempt + 1)
        (r.1, 2 ^ attempt :: r.2.1, r.2.2 + 1)
    | .netError =>
      if attempt = max_retries - 1 then (.failed .connectFailed, [], 1)
      else
        let r := sendFrom outcome max_retries (attempt + 1)
        (r.1, 2 ^ attempt :: r.2.1, r.2.2 + 1)
  else (.failed .maxRetriesExceeded, [], 0)
termination_by max_retries - attempt

/-- `send_snapshot_batch` with the transport oracle `outcome` and the
configured `max_retries` (source default 3). -/
def send_snapshot_batch (outcome : Nat → AttemptOutcome) (max_retries : Nat) :
    SendOutcome × List Nat × Nat :=
  sendFrom outcome max_retries 0

/-- A transport-level failure: the exception branches of the source. -/
def isTransportFailure (o : AttemptOutcome) : Bool :=
  match o with
  | .timeout => true
  | .netError => true
  | .http _ => false

/-- Under persistent transport failures, the loop starting at `attempt`
sleeps `2 ^ attempt, …, 2 ^ (max_retries - 2)` and raises after using
every remaining attempt. -/
theorem sendFrom_transport (outcome : Nat → AttemptOutcome) (max_retries : Nat)
    (htr : ∀ a, isTransportFailure (outcome a) = true) :
    ∀ attempt, attempt < max_retries →
      (∃ e, e ≠ SendError.maxRetriesExceeded ∧
          sendFrom outcome max_retries attempt =
            (.failed e,
             (List.range' attempt (max_retries - 1 - attempt)).map (2 ^ ·),
             max_retries - attempt)) := by
  suffices h : ∀ k attempt, max_retries - attempt = k → attempt < max_retries →
      (∃ e, e ≠ SendError.maxRetriesExceeded ∧
          sendFrom outcome max_retries attempt =
            (.failed e,
             (List.range' attempt (max_retries - 1 - attempt)).map (2 ^ ·),
             max_retries - attempt)) by
    exact fun attempt => h (max_retries - attempt) attempt rfl
  intro k
  induction k using Nat.strong_induction_on with
  | _ k ih =>
    intro attempt hk hlt
    rw [sendFrom]
    simp only [if_pos hlt]
    have htro := htr attempt
    rcases hout : outcome attempt with code | _ | _
    · rw [hout] at htro
      simp [isTransportFailure] at htro
    · rcases Nat.eq_or_lt_of_le (Nat.succ_le_of_lt hlt) with hlast | hmore
      · refine ⟨.timedOut, by simp, ?_⟩
        simp only [if_pos (by omega : attempt = max_retries - 1)]
        have : max_retries - 1 - attempt = 0 := by omega
        rw [this]
        simp
        omega
      · obtain ⟨e, hne, hrec⟩ :=
          ih (max_retries - (attempt + 1)) (by omega) (attempt + 1) rfl (by omega)
        refine ⟨e, hne, ?_⟩
        simp only [if_neg (by omega : ¬attempt = max_retries - 1)]
        rw [hrec]
        have hn : max_retries - 1 - attempt = (max_retries - 1 - (attempt + 1)) + 1 := by
          omega
        rw [hn, List.range'_succ]
        simp
        omega
    · rcases Nat.eq_or_lt_of_le (Nat.succ_le_of_lt hlt) with hlast | hmore
      · refine ⟨.connectFailed, by simp, ?_⟩
        simp only [if_pos (by omega : attempt = max_retries - 1)]
        have : max_retries - 1 - attempt = 0 := by omega
        rw [this]
        simp
        omega
      · obtain ⟨e, hne, hrec⟩ :=
          ih (max_retries - (attempt + 1)) (by omega) (attempt + 1) rfl (by omega)
        refine ⟨e, hne, ?_⟩
        simp only [if_neg (by omega : ¬attempt = max_retries - 1)]
        rw [hrec]
        have hn : max_retries - 1 - attempt = (max_retries - 1 - (attempt + 1)) + 1 := by
          omega
        rw [hn, List.range'_succ]
        simp
        omega

/-- C6: under persistent transport failures (timeouts, connection or DNS
errors), `send_snapshot_batch` performs exactly `max_retries` attempts,
sleeps `2^0, 2^1, …` between attempts — a doubling, hence non-decreasing,
schedule bounded by `2 ^ (max_retries - 1)` — and ends by raising an
error instead of returning a response. -/
theorem send_snapshot_batch_transport_retries
    (outcome : Nat → AttemptOutcome) (max_retries : Nat) (hm : 0 < max_retries)
    (htr : ∀ a, isTransportFailure (outcome a) = true) :
    (∃ e, (send_snapshot_batch outcome max_retries).1 = .failed e) ∧
    (∀ a, (send_snapshot_batch outcome max_retries).1 ≠ .accepted a) ∧
    (send_snapshot_batch outcome max_retries).2.2 = max_retries ∧
    (send_snapshot_batch outcome max_retries).2.1 =
      (List.range (max_retries - 1)).map (2 ^ ·) ∧
    (send_snapshot_batch outcome max_retries).2.1.Chain' (· ≤ ·) ∧
    (∀ d ∈ (send_snapshot_batch outcome max_retries).2.1,
      d ≤ 2 ^ (max_retries - 1)) := by
  obtain ⟨e, _, heq⟩ := sendFrom_transport outcome max_retries htr 0 hm
  rw [List.range_eq_range']
  have h0 : max_retries - 1 - 0 = max_retries - 1 := by omega
  rw [h0] at heq
  unfold send_snapshot_batch
  rw [heq]
  refine ⟨⟨e, rfl⟩, by simp, by simp, rfl, ?_, ?_⟩
  · apply List.Pairwise.chain'
    apply List.Pairwise.map (2 ^ ·)
      (fun a b hab => Nat.pow_le_pow_right (by omega) (Nat.le_of_lt hab))
    exact List.pairwise_lt_range' 0 (max_retries - 1)
  · intro d hd
    simp only [List.mem_map, List.mem_range'] at hd
    obtain ⟨i, hi, rfl⟩ := hd
    exact Nat.pow_le_pow_right (by omega) (by omega)

/-- C6 witness: with every attempt timing out and `max_retries = 3`, the
client makes 3 attempts with delays `[1, 2]` and fails. -/
theorem send_snapshot_batch_transport_retries_witness :
    (∃ e, (send_snapshot_batch (fun _ => .timeout) 3).1 = .failed e) ∧
    (send_snapshot_batch (fun _ => .timeout) 3).2.2 = 3 ∧
    (send_snapshot_batch (fun _ => .timeout) 3).2.1 =
      (List.range (3 - 1)).map (2 ^ ·) := by
  have h := send_snapshot_batch_transport_retries (fun _ => .timeout) 3
    (by decide) (fun a => rfl)
  exact ⟨h.1, h.2.2.1, h.2.2.2.1⟩

/-- C7: a response with status ≥ 400 other than 429 makes
`send_snapshot_batch` raise immediately: one attempt, no sleeping, no
retry. -/
theorem send_snapshot_batch_rejection (outcome : Nat → AttemptOutcome)
    (max_retries code : Nat) (hm : 0 < max_retries)
    (hout : outcome 0 = .http code) (hge : 400 ≤ code) (hne : code ≠ 429) :
    send_snapshot_batch outcome max_retries = (.failed (.rejected code), [], 1) := by
  unfold send_snapshot_batch
  rw [sendFrom]
  simp only [if_pos hm, hout]
  rw [if_neg (by omega), if_neg hne, if_pos hge]

/-- C7 witness: a 403 response on the first attempt with `max_retries = 3`. -/
theorem send_snapshot_batch_rejection_witness :
    send_snapshot_batch (fun _ => .http 403) 3 = (.failed (.rejected 403), [], 1) :=
  send_snapshot_batch_rejection (fun _ => .http 403) 3 403 (by decide) rfl
    (by decide) (by decide)

/-- Under persistent 429 responses, the loop starting at `attempt`
sleeps `2 ^ attempt, …, 2 ^ (max_retries - 1)` (the 429 branch sleeps
even on the last attempt) and then raises max-retries-exceeded. -/
theorem sendFrom_rate_limited (outcome : Nat → AttemptOutcome) (max_retries : Nat)
    (h429 : ∀ a, outcome a = .http 429) :
    ∀ attempt,
      sendFrom outcome max_retries attempt =
        (.failed .maxRetriesExceeded,
         (List.range' attempt (max_retries - attempt)).map (2 ^ ·),
         max_retries - attempt) := by
  suffices h : ∀ k attempt, max_retries - attempt = k →
      sendFrom outcome max_retries attempt =
        (.failed .maxRetriesExceeded,
         (List.range' attempt (max_retries - attempt)).map (2 ^ ·),
         max_retries - attempt) by
    exact fun attempt => h (max_retries - attempt) attempt rfl
  intro k
  induction k using Nat.strong_induction_on with
  | _ k ih =>
    intro attempt hk
    rw [sendFrom]
    rcases Nat.lt_or_ge attempt max_retries with hlt | hge
    · simp only [if_pos hlt, h429 attempt, if_true]
      rw [ih (max_retries - (attempt + 1)) (by omega) (attempt + 1) rfl]
      have hn : max_retries - attempt = (max_retries - (attempt + 1)) + 1 := by omega
      rw [hn, List.range'_succ]
      simp
    · rw [if_neg (by omega)]
      have hz : max_retries - attempt = 0 := by omega
      rw [hz]
      simp

/-- C5 counterexample: the source's 429 branch sleeps `2 ** attempt`
seconds and never reads the server's `retryAfter`.  With every attempt
rate-limited and `max_retries = 3`, the waits are `[1, 2, 4]`: the wait
before the second attempt on the batch is 1 second, less than a
server-specified `retryAfter` of 5 seconds. -/
theorem rate_limited_ignores_retry_after :
    (send_snapshot_batch (fun _ => .http 429) 3).2.1 = [1, 2, 4] ∧
    (send_snapshot_batch (fun _ => .http 429) 3).2.1.getD 0 0 < 5 := by
  have h := sendFrom_rate_limited (fun _ => .http 429) 3 (fun a => rfl) 0
  unfold send_snapshot_batch
  rw [h]
  constructor
  · rfl
  · decide

/-- C5 (amended): on a 429 rate-limit response the client sleeps
`2 ^ attempt` seconds before re-attempting the same batch — a fixed
doubling schedule independent of any server-supplied `retryAfter` — and
after `max_retries` consecutive 429 responses the delivery fails with
the max-retries-exceeded error.  The retry loop is internal to one
batch's delivery, so batch count and batch order are unaffected. -/
theorem send_snapshot_batch_rate_limited (outcome : Nat → AttemptOutcome)
    (max_retries : Nat) (h429 : ∀ a, outcome a = .http 429) :
    send_snapshot_batch outcome max_retries =
      (.failed .maxRetriesExceeded,
       (List.range max_retries).map (2 ^ ·),
       max_retries) := by
  unfold send_snapshot_batch
  rw [sendFrom_rate_limited outcome max_retries h429 0, List.range_eq_range']
  simp

/-- C5 witness: three straight 429 responses give waits `[1, 2, 4]` and
a raised error after 3 attempts. -/
theorem send_snapshot_batch_rate_limited_witness :
    send_snapshot_batch (fun _ => .http 429) 3 =
      (.failed .maxRetriesExceeded, [1, 2, 4], 3) := by
  rw [send_snapshot_batch_rate_limited (fun _ => .http 429) 3 (fun a => rfl)]
  decide

/-! ## Sequential batch dispatch (`_send_batches_to_spring`)

The source iterates `for batch_num, batch_files in enumerate(batches,
start=1)`, sends batch `batch_num`, and `break`s out of the loop as soon
as `send_snapshot_batch` raises.  The delivery outcome of each batch is
an oracle `deliver : Nat → Bool` (`true` = the send returned, `false` =
it raised); the model returns the batch numbers attempted, in order. -/

def attemptedBatches (deliver : Nat → Bool) : Nat → Nat → List Nat
  | 0, _ => []
  | k + 1, n => if deliver n then n :: attemptedBatches deliver k (n + 1) else [n]

/-- Batch numbers attempted by `_send_batches_to_spring`, in send order:
the loop runs over batches `1 … total_batches` and stops after the first
failed delivery. -/
def _send_batches_to_spring (deliver : Nat → Bool) (total_batches : Nat) : List Nat :=
  attemptedBatches deliver total_batches 1

/-- Membership in the attempted-batch list: batch `j` is attempted iff
it is in range and every earlier batch of the window was delivered. -/
theorem mem_attemptedBatches (deliver : Nat → Bool) :
    ∀ k s j, j ∈ attemptedBatches deliver k s ↔
      (s ≤ j ∧ j < s + k ∧ ∀ i, s ≤ i → i < j → deliver i = true) := by
  intro k
  induction k with
  | zero =>
    intro s j
    simp [attemptedBatches]
    omega
  | succ k ih =>
    intro s j
    rw [attemptedBatches]
    by_cases hd : deliver s
    · simp only [if_pos hd, List.mem_cons, ih (s + 1) j]
      constructor
      · rintro (rfl | ⟨h1, h2, h3⟩)
        · exact ⟨Nat.le_refl _, by omega, fun i hi1 hi2 => absurd hi2 (by omega)⟩
        · refine ⟨by omega, by omega, fun i hi1 hi2 => ?_⟩
          rcases Nat.eq_or_lt_of_le hi1 with rfl | hlt
          · exact hd
          · exact h3 i (by omega) hi2
      · rintro ⟨h1, h2, h3⟩
        rcases Nat.eq_or_lt_of_le h1 with rfl | hlt
        · exact Or.inl rfl
        · exact Or.inr ⟨by omega, by omega, fun i hi1 hi2 => h3 i (by omega) hi2⟩
    · simp only [if_neg hd, List.mem_singleton]
      constructor
      · rintro rfl
        exact ⟨Nat.le_refl _, by omega, fun i hi1 hi2 => absurd hi2 (by omega)⟩
      · rintro ⟨h1, h2, h3⟩
        rcases Nat.eq_or_lt_of_le h1 with rfl | hlt
        · rfl
        · exact absurd (h3 s (Nat.le_refl _) hlt) (by simpa using hd)

/-- The attempted-batch list is a contiguous ascending run. -/
theorem attemptedBatches_eq_range' (deliver : Nat → Bool) :
    ∀ k s, ∃ m, m ≤ k ∧ attemptedBatches deliver k s = List.range' s m := by
  intro k
  induction k with
  | zero => exact fun s => ⟨0, Nat.le_refl _, rfl⟩
  | succ k ih =>
    intro s
    rw [attemptedBatches]
    by_cases hd : deliver s
    · obtain ⟨m, hm, heq⟩ := ih (s + 1)
      refine ⟨m + 1, by omega, ?_⟩
      rw [if_pos hd, heq, List.range'_succ]
    · exact ⟨1, by omega, by simp [hd]⟩

/-- C2: within one task the batches are sent in strictly ascending
sequence order starting at 1 (the attempted list is `range' 1 m` for
some `m ≤ totalBatches`); batch `n + 1` is attempted only if batch `n`
was attempted and its delivery succeeded; once a batch's delivery fails,
no later batch is ever attempted; and when every delivery succeeds all
of `1 … totalBatches` are sent in order. -/
theorem send_batches_to_spring_spec (deliver : Nat → Bool) (total_batches : Nat) :
    (∃ m, m ≤ total_batches ∧
        _send_batches_to_spring deliver total_batches = List.range' 1 m) ∧
    (∀ n, 1 ≤ n → n + 1 ∈ _send_batches_to_spring deliver total_batches →
        deliver n = true ∧ n ∈ _send_batches_to_spring deliver total_batches) ∧
    (∀ n, n ∈ _send_batches_to_spring deliver total_batches → deliver n = false →
        ∀ j, n < j → j ∉ _send_batches_to_spring deliver total_batches) ∧
    ((∀ i, 1 ≤ i → i ≤ total_batches → deliver i = true) →
        _send_batches_to_spring deliver total_batches = List.range' 1 total_batches) := by
  refine ⟨attemptedBatches_eq_range' deliver total_batches 1, ?_, ?_, ?_⟩
  · intro n hn hmem
    rw [_send_batches_to_spring, mem_attemptedBatches] at hmem
    obtain ⟨h1, h2, h3⟩ := hmem
    refine ⟨h3 n hn (by omega), ?_⟩
    rw [_send_batches_to_spring, mem_attemptedBatches]
    exact ⟨hn, by omega, fun i hi1 hi2 => h3 i hi1 (by omega)⟩
  · intro n hmem hfail j hj hjmem
    rw [_send_batches_to_spring, mem_attemptedBatches] at hmem hjmem
    obtain ⟨hn1, _, _⟩ := hmem
    obtain ⟨_, _, h3⟩ := hjmem
    rw [h3 n hn1 hj] at hfail
    simp at hfail
  · intro hall
    obtain ⟨m, hm, heq⟩ := attemptedBatches_eq_range' deliver total_batches 1
    rw [_send_batches_to_spring, heq]
    rcases Nat.eq_or_lt_of_le hm with rfl | hlt
    · rfl
    · exfalso
      have hmem : m + 1 ∈ attemptedBatches deliver total_batches 1 := by
        rw [mem_attemptedBatches]
        exact ⟨by omega, by omega, fun i hi1 hi2 => hall i hi1 (by omega)⟩
      rw [heq, List.mem_range'] at hmem
      omega

/-- C2 witness: with batch 2 failing out of 4 batches, the attempted
sequence is `[1, 2]` and batch 3 is never attempted. -/
theorem send_batches_to_spring_spec_witness :
    _send_batches_to_spring (fun n => decide (n ≠ 2)) 4 = [1, 2] ∧
    3 ∉ _send_batches_to_spring (fun n => decide (n ≠ 2)) 4 := by
  refine ⟨by decide, ?_⟩
  exact (send_batches_to_spring_spec (fun n => decide (n ≠ 2)) 4).2.2.1 2
    (by decide) (by decide) 3 (by decide)

/-! ## PARA classifier (`to_organized_file_entry`)

The source classifies with Python truthiness on the keyword list:
`if entry.is_development: PROJECTS elif entry.keywords: RESOURCES
else: ARCHIVE`. -/

/-- The four PARA buckets. -/
inductive ParaBucket
  | projects
  | areas
  | resources
  | archive
deriving DecidableEq

/-- The PARA classification performed by `to_organized_file_entry`. -/
def to_organized_file_entry_bucket (is_development : Bool)
    (keywords : List String) : ParaBucket :=
  if is_development then .projects
  else if keywords ≠ [] then .resources
  else .archive

/-- C4: the classifier is a pure total function of
`(isDevelopment, keywords)`: development files map to Projects,
non-development files with keywords to Resources, the rest to Archive;
exactly one bucket results, equal inputs give equal buckets, and Areas
is never produced. -/
theorem para_classifier_spec (is_development : Bool) (keywords : List String) :
    (is_development = true →
      to_organized_file_entry_bucket is_development keywords = .projects) ∧
    (is_development = false → keywords ≠ [] →
      to_organized_file_entry_bucket is_development keywords = .resources) ∧
    (is_development = false → keywords = [] →
      to_organized_file_entry_bucket is_development keywords = .archive) ∧
    to_organized_file_entry_bucket is_development keywords ≠ .areas ∧
    (∀ d kw, d = is_development → kw = keywords →
      to_organized_file_entry_bucket d kw =
        to_organized_file_entry_bucket is_development keywords) := by
  refine ⟨?_, ?_, ?_, ?_, ?_⟩
  · intro hd
    simp [to_organized_file_entry_bucket, hd]
  · intro hd hkw
    simp [to_organized_file_entry_bucket, hd, hkw]
  · intro hd hkw
    simp [to_organized_file_entry_bucket, hd, hkw]
  · cases is_development with
    | true => simp [to_organized_file_entry_bucket]
    | false =>
      by_cases hkw : keywords = []
      · simp [to_organized_file_entry_bucket, hkw]
      · simp [to_organized_file_entry_bucket, hkw]
  · intro d kw hd hkw
    rw [hd, hkw]

/-- C4 witness: a development file with no keywords goes to Projects. -/
theorem para_classifier_spec_witness :
    to_organized_file_entry_bucket true [] = .projects :=
  (para_classifier_spec true []).1 rfl

/-! ## Local task bookkeeping (`_task_storage`)

`organize_folder` stores `{"status": "PROCESSING", ...}` under the task
id (the only write to `_task_storage` in the source) and spawns
`_send_batches_to_spring` in the background.  The dispatch loop logs
and sends; neither its success path nor its `except ... break` arms
write to `_task_storage` (failure handling is an explicit TODO in the
source), so the storage is carried through the loop unchanged. -/

/-- The value stored in `_task_storage[task_id]` by `organize_folder`. -/
structure TaskEntry where
  status : String
  directory : String
  total_files : Nat
  total_batches : Nat
  created_at : String
deriving DecidableEq

/-- Storage effect of the dispatch loop of `_send_batches_to_spring`:
the loop body (build request, send, log; on exception, `break`) contains
no write to `_task_storage` in either branch. -/
def sendBatchesStorage (deliver : Nat → Bool)
    (storage : List (String × TaskEntry)) : Nat → Nat → List (String × TaskEntry)
  | 0, _ => storage
  | k + 1, n =>
    if deliver n then sendBatchesStorage deliver storage k (n + 1) else storage

/-- `_task_storage` after `organize_folder` has registered the task and
the background `_send_batches_to_spring` run has finished. -/
def task_storage_after_run (task_id directory created_at : String)
    (total_files total_batches : Nat) (deliver : Nat → Bool) :
    List (String × TaskEntry) :=
  sendBatchesStorage deliver
    [(task_id,
      { status := "PROCESSING", directory := directory,
        total_files := total_files, total_batches := total_batches,
        created_at := created_at })]
    total_batches 1

/-- Local task status as read back by `get_organization_status`. -/
def local_task_status (storage : List (String × TaskEntry))
    (task_id : String) : Option String :=
  (storage.lookup task_id).map TaskEntry.status

/-- The dispatch loop leaves the storage untouched. -/
theorem sendBatchesStorage_eq (deliver : Nat → Bool)
    (storage : List (String × TaskEntry)) :
    ∀ k n, sendBatchesStorage deliver storage k n = storage := by
  intro k
  induction k with
  | zero => intro n; rfl
  | succ k ih =>
    intro n
    rw [sendBatchesStorage]
    by_cases hd : deliver n
    · rw [if_pos hd, ih]
    · rw [if_neg hd]

/-- C3 (code bug): whatever the delivery outcomes, the local task entry
keeps status `"PROCESSING"` forever — `_send_batches_to_spring` never
records a completed or failed state, so the status is not
`"COMPLETED"` even when every batch is delivered successfully. -/
theorem task_status_stuck_processing (task_id directory created_at : String)
    (total_files total_batches : Nat) (deliver : Nat → Bool) :
    local_task_status
        (task_storage_after_run task_id directory created_at
          total_files total_batches deliver) task_id = some "PROCESSING" := by
  rw [task_storage_after_run, sendBatchesStorage_eq]
  simp [local_task_status, List.lookup]

/-- C3 failing input evaluated: a task of one batch whose delivery
succeeds still reads back status `"PROCESSING"`, not `"COMPLETED"`. -/
theorem task_status_stuck_processing_witness :
    local_task_status
        (task_storage_after_run "task-1" "/d" "t0" 1 1 (fun _ => true))
        "task-1" = some "PROCESSING" ∧
    some "PROCESSING" ≠ some "COMPLETED" := by
  refine ⟨task_status_stuck_processing "task-1" "/d" "t0" 1 1 (fun _ => true), ?_⟩
  decide

/-! ## Frontend page-size clamping (`frontend-client.ts`)

Both `inspectAndOrganizeFolder` and `inspectAndOrganizeWithGeneration`
compute `Math.max(10, Math.min(pageSize, 500))` and send it as the
`page_size` query parameter; the `pageSize` parameter defaults to 100. -/

/-- `page_size` computed by `inspectAndOrganizeFolder`. -/
def inspectAndOrganizeFolder_page_size (pageSize : Int) : Int :=
  max 10 (min pageSize 500)

/-- `page_size` computed by `inspectAndOrganizeWithGeneration`. -/
def inspectAndOrganizeWithGeneration_page_size (pageSize : Int) : Int :=
  max 10 (min pageSize 500)

/-- Default used when the caller omits `pageSize`. -/
def default_page_size : Int := 100

/-- C10: both frontend calls clamp the `page_size` query parameter to
`max(10, min(pageSize, 500))`, always inside `[10, 500]`, and an omitted
`pageSize` defaults to 100, which is sent unchanged. -/
theorem page_size_clamped (pageSize : Int) :
    inspectAndOrganizeFolder_page_size pageSize = max 10 (min pageSize 500) ∧
    inspectAndOrganizeWithGeneration_page_size pageSize = max 10 (min pageSize 500) ∧
    10 ≤ inspectAndOrganizeFolder_page_size pageSize ∧
    inspectAndOrganizeFolder_page_size pageSize ≤ 500 ∧
    10 ≤ inspectAndOrganizeWithGeneration_page_size pageSize ∧
    inspectAndOrganizeWithGeneration_page_size pageSize ≤ 500 ∧
    inspectAndOrganizeFolder_page_size default_page_size = 100 ∧
    inspectAndOrganizeWithGeneration_page_size default_page_size = 100 := by
  unfold inspectAndOrganizeFolder_page_size inspectAndOrganizeWithGeneration_page_size
    default_page_size
  refine ⟨rfl, rfl, ?_, ?_, ?_, ?_, by decide, by decide⟩ <;> omega

/-! ## Traversal and extraction (`_collect_and_extract_files`)

The source walks `directory.rglob("*")`, skips names starting with a
dot, and for each remaining path builds a `FileEntry`:
keywords/caption/confidence start at `[]`, `None`, `0.0`; for files the
type-specific extractor may overwrite them, and an inner
`except Exception` keeps the defaults if the extractor raises; an outer
`except Exception` (e.g. `stat` failing while the entry is built) skips
the path and continues.  The file system and the three extractors are
oracles recorded in `ScanPath`. -/

/-- Python `str.startswith(".")`: the first character is a dot. -/
def startsWithDot (s : String) : Bool :=
  match s.data with
  | c :: _ => c = '.'
  | [] => false

/-- Python `str.lower()` applied to an extension (character-wise
lowercasing; the extensions compared against are ASCII). -/
def lowerString (s : String) : String :=
  String.mk (s.data.map Char.toLower)

/-- Result of `extract_image_highlights`. -/
structure ImageHighlights where
  ocr_lines : List String
  caption : Option String
deriving DecidableEq

/-- One path yielded by `directory.rglob("*")`, together with the
oracle outcomes of the external calls made for it: the three extractors
(`Except.error` = the call raised) and metadata access (`stat_ok =
false` = the outer try-except caught an exception for this path). -/
structure ScanPath where
  name : String
  suffix : String
  is_file : Bool
  is_dir : Bool
  relative_path : String
  absolute_path : String
  size_bytes : Nat
  mtime : Nat
  pdf_result : Except String (List String)
  image_result : Except String ImageHighlights
  sheet_result : Except String (Option String)
  stat_ok : Bool

/-- The `FileEntry` model of `app.schemas.organization`. -/
structure FileEntry where
  relative_path : String
  absolute_path : String
  is_directory : Bool
  size_bytes : Nat
  modified_at : Nat
  file_type : Option String
  keywords : List String
  caption : Option String
  confidence : ℚ
deriving DecidableEq

/-- `_get_file_type`: lowercased extension → type tag. -/
def _get_file_type (suffix : String) : Option String :=
  let s := lowerString suffix
  if s = ".pdf" then some "pdf"
  else if s = ".png" then some "image"
  else if s = ".jpg" then some "image"
  else if s = ".jpeg" then some "image"
  else if s = ".webp" then some "image"
  else if s = ".xlsx" then some "xlsx"
  else if s = ".xls" then some "xlsx"
  else if s = ".csv" then some "csv"
  else if s = ".md" then some "markdown"
  else if s = ".txt" then some "text"
  else if s = ".py" then some "python"
  else if s = ".js" then some "javascript"
  else if s = ".ts" then some "typescript"
  else none

/-- The keyword/caption/confidence triple computed for one path: the
dispatch on `file_type` inside `_collect_and_extract_files`, with the
inner `except Exception` restoring the defaults `([], None, 0.0)` when
the extractor call raises. -/
def extract_for_path (p : ScanPath) : List String × Option String × ℚ :=
  let file_type := _get_file_type p.suffix
  if p.is_file then
    if file_type = some "pdf" then
      match p.pdf_result with
      | .ok kws => (kws, none, 9 / 10)
      | .error _ => ([], none, 0)
    else if file_type = some "image" then
      match p.image_result with
      | .ok r => (r.ocr_lines, r.caption, 85 / 100)
      | .error _ => ([], none, 0)
    else if file_type = some "xlsx" ∨ file_type = some "csv" then
      match p.sheet_result with
      | .ok (some c) => ([c], some c, 8 / 10)
      | .ok none => ([], none, 8 / 10)
      | .error _ => ([], none, 0)
    else ([], none, 0)
  else ([], none, 0)

/-- Processing of one path of the traversal: hidden names are skipped
(`continue`), the outer `except Exception` skips the path when metadata
access fails, and otherwise a `FileEntry` is appended with the keyword
list truncated to its first 5 entries (`keywords[:5]`). -/
def process_scan_path (p : ScanPath) : Option FileEntry :=
  if startsWithDot p.name then none
  else if p.stat_ok = false then none
  else
    let r := extract_for_path p
    some
      { relative_path := p.relative_path
        absolute_path := p.absolute_path
        is_directory := p.is_dir
        size_bytes := p.size_bytes
        modified_at := p.mtime
        file_type := _get_file_type p.suffix
        keywords := r.1.take 5
        caption := r.2.1
        confidence := r.2.2 }

/-- `_collect_and_extract_files` over the traversal order produced by
`rglob`. -/
def _collect_and_extract_files (paths : List ScanPath) : List FileEntry :=
  paths.filterMap process_scan_path

/-- The type tags that have an extraction handler in
`_collect_and_extract_files` (pdf, image, xlsx/csv). -/
def hasExtractionHandler (file_type : Option String) : Bool :=
  file_type = some "pdf" ∨ file_type = some "image" ∨
    file_type = some "xlsx" ∨ file_type = some "csv"

/-- Whether the extractor invoked for this path raised. -/
def extractionRaised (p : ScanPath) : Bool :=
  let file_type := _get_file_type p.suffix
  if file_type = some "pdf" then
    match p.pdf_result with
    | .ok _ => false
    | .error _ => true
  else if file_type = some "image" then
    match p.image_result with
    | .ok _ => false
    | .error _ => true
  else if file_type = some "xlsx" ∨ file_type = some "csv" then
    match p.sheet_result with
    | .ok _ => false
    | .error _ => true
  else false

/-- A path with no applicable handler, or whose handler raised, yields
the defaults: empty keywords and confidence 0. -/
theorem extract_for_path_default (p : ScanPath)
    (h : (p.is_file = true → hasExtractionHandler (_get_file_type p.suffix) = false) ∨
          extractionRaised p = true) :
    (extract_for_path p).1 = [] ∧ (extract_for_path p).2.2 = 0 := by
  unfold extract_for_path
  by_cases hf : p.is_file
  · simp only [hf, if_true]
    by_cases h1 : _get_file_type p.suffix = some "pdf"
    · rcases h with h | h
      · have := h hf
        rw [hasExtractionHandler] at this
        simp [h1] at this
      · rw [extractionRaised] at h
        simp only [h1, if_true] at h ⊢
        cases hr : p.pdf_result with
        | ok v => rw [hr] at h; simp at h
        | error e => simp
    · simp only [h1, if_false]
      by_cases h2 : _get_file_type p.suffix = some "image"
      · rcases h with h | h
        · have := h hf
          rw [hasExtractionHandler] at this
          simp [h2] at this
        · rw [extractionRaised] at h
          simp only [h1, h2, if_false, if_true] at h ⊢
          cases hr : p.image_result with
          | ok v => rw [hr] at h; simp at h
          | error e => simp
      · simp only [h2, if_false]
        by_cases h3 : _get_file_type p.suffix = some "xlsx" ∨
            _get_file_type p.suffix = some "csv"
        · rcases h with h | h
          · have := h hf
            rw [hasExtractionHandler] at this
            rcases h3 with h3 | h3 <;> simp [h3] at this
          · rw [extractionRaised] at h
            simp only [h1, h2, h3, if_false, if_true] at h ⊢
            cases hr : p.sheet_result with
            | ok v => rw [hr] at h; simp at h
            | error e => simp
        · simp [h3]
  · simp [hf]

/-- C8: a non-hidden path with intact metadata whose type tag has no
extraction handler, or whose extraction raised, still produces a
`FileEntry` with empty keywords and confidence 0; and the traversal
always continues past any single path — the records collected after it
are exactly those of the remaining paths. -/
theorem collect_and_extract_isolation (p : ScanPath)
    (hname : startsWithDot p.name = false) (hstat : p.stat_ok = true)
    (h : (p.is_file = true → hasExtractionHandler (_get_file_type p.suffix) = false) ∨
          extractionRaised p = true) :
    (∃ e, process_scan_path p = some e ∧ e.keywords = [] ∧ e.confidence = 0) ∧
    (∀ before after : List ScanPath,
      _collect_and_extract_files (before ++ p :: after) =
        _collect_and_extract_files before ++ (process_scan_path p).toList ++
          _collect_and_extract_files after) := by
  constructor
  · obtain ⟨hkw, hconf⟩ := extract_for_path_default p h
    rw [process_scan_path, if_neg (by simp [hname]), if_neg (by simp [hstat])]
    exact ⟨_, rfl, by simp [hkw], by simp [hconf]⟩
  · intro before after
    unfold _collect_and_extract_files
    rw [List.filterMap_append, List.filterMap_cons]
    cases hp : process_scan_path p with
    | none => simp
    | some e => simp

/-- C8 witness: a `.py` file (no handler) is still recorded, with empty
keywords and confidence 0. -/
theorem collect_and_extract_isolation_witness :
    ∃ e, process_scan_path
        { name := "tool.py", suffix := ".py", is_file := true, is_dir := false,
          relative_path := "tool.py", absolute_path := "/d/tool.py",
          size_bytes := 10, mtime := 0, pdf_result := .ok [],
          image_result := .ok ⟨[], none⟩, sheet_result := .ok none,
          stat_ok := true } = some e ∧ e.keywords = [] ∧ e.confidence = 0 :=
  (collect_and_extract_isolation
    { name := "tool.py", suffix := ".py", is_file := true, is_dir := false,
      relative_path := "tool.py", absolute_path := "/d/tool.py",
      size_bytes := 10, mtime := 0, pdf_result := .ok [],
      image_result := .ok ⟨[], none⟩, sheet_result := .ok none,
      stat_ok := true }
    rfl rfl (Or.inl (fun _ => by decide))).1

/-- C9: every `FileEntry` produced by `_collect_and_extract_files`
carries at most 5 keywords, for every traversal and every extraction
outcome, because the stored list is `keywords[:5]`. -/
theorem collect_and_extract_keywords_bounded (paths : List ScanPath) :
    ∀ e ∈ _collect_and_extract_files paths, e.keywords.length ≤ 5 := by
  intro e he
  rw [_collect_and_extract_files] at he
  obtain ⟨p, _, hpe⟩ := List.mem_filterMap.mp he
  rw [process_scan_path] at hpe
  by_cases h1 : startsWithDot p.name
  · rw [if_pos h1] at hpe
    exact absurd hpe (Option.noConfusion)
  · rw [if_neg h1] at hpe
    by_cases h2 : p.stat_ok = false
    · rw [if_pos h2] at hpe
      exact absurd hpe (Option.noConfusion)
    · rw [if_neg h2] at hpe
      obtain rfl := Option.some_injective _ hpe
      simp [List.length_take]

/-- The scan path used to evaluate the C9 bound. -/
def sevenKeywordPdf : ScanPath :=
  { name := "r.pdf", suffix := ".pdf", is_file := true, is_dir := false,
    relative_path := "r.pdf", absolute_path := "/d/r.pdf",
    size_bytes := 10, mtime := 0,
    pdf_result := .ok ["k1", "k2", "k3", "k4", "k5", "k6", "k7"],
    image_result := .ok ⟨[], none⟩, sheet_result := .ok none,
    stat_ok := true }

/-- The entry `_collect_and_extract_files [sevenKeywordPdf]` produces. -/
def sevenKeywordPdfEntry : FileEntry :=
  { relative_path := "r.pdf", absolute_path := "/d/r.pdf",
    is_directory := false, size_bytes := 10, modified_at := 0,
    file_type := some "pdf", keywords := ["k1", "k2", "k3", "k4", "k5"],
    caption := none, confidence := 9 / 10 }

/-- C9 witness: a PDF whose extractor returns 7 keywords is stored with
5. -/
theorem collect_and_extract_keywords_bounded_witness :
    sevenKeywordPdfEntry.keywords.length ≤ 5 :=
  collect_and_extract_keywords_bounded [sevenKeywordPdf] sevenKeywordPdfEntry
    (List.mem_singleton.mpr rfl)

end Nebula
